import Mathlib

/-!
# Verification of the mini-spice MNA core

Shallow embedding of the StampContext arena, the device stamps, the circuit
finalization protocol and the DC Newton-Raphson driver of the mini-spice
circuit simulator.  C `double` values are modelled as exact rationals (`ℚ`),
C `int` values as `Int`, and the mutable structures as explicit state passing.
Each definition mirrors one function of the C++ source.
-/

/- The Batteries rational operations are sealed against unfolding; the
concrete evaluations below go through the kernel, so restore the default
reducibility for them. -/
set_option allowUnsafeReducibility true in
attribute [semireducible] Rat.add Rat.mul Rat.inv Rat.sub

namespace MiniSpice

/-- COO matrix contribution, mirroring `struct Triplet` in `stamp.h`. -/
structure Triplet where
  row : Int
  col : Int
  val : ℚ
deriving DecidableEq, Repr

/-- The stamp-accumulation arena, mirroring `struct StampContext`:
`num_vars_`, `num_extra_allocated_`, the triplet list and the RHS vector. -/
structure StampContext where
  num_vars : Int
  num_extra_allocated : Int
  triplets : List Triplet
  z : List ℚ
deriving DecidableEq, Repr

/-- `std::vector::resize(n, v)`: truncate or pad with `v` to length `n`. -/
def listResize (l : List ℚ) (n : Nat) (v : ℚ) : List ℚ :=
  l.take n ++ List.replicate (n - l.length) v

/-- `CtxCreate`: fails on `num_vars <= 0`, otherwise an empty context with a
zero RHS of length `num_vars`. -/
def CtxCreate (num_vars : Int) : Option StampContext :=
  if num_vars ≤ 0 then none
  else some ⟨num_vars, 0, [], List.replicate num_vars.toNat 0⟩

/-- `CtxReset`: clears the triplets and zero-fills the RHS, keeping its
length and `num_vars_` unchanged. -/
def CtxReset (ctx : StampContext) : StampContext :=
  { ctx with triplets := [], z := ctx.z.map (fun _ => 0) }

/-- `CtxAddA`: appends a triplet unless the row or column is out of range or
the value is exactly zero (checks in source order). -/
def CtxAddA (ctx : StampContext) (row col : Int) (val : ℚ) : StampContext :=
  if row < 0 ∨ ctx.num_vars ≤ row then ctx
  else if col < 0 ∨ ctx.num_vars ≤ col then ctx
  else if val = 0 then ctx
  else { ctx with triplets := ctx.triplets ++ [⟨row, col, val⟩] }

/-- `CtxAddZ`: adds `val` to `z_[idx]`, dropping out-of-range indices. -/
def CtxAddZ (ctx : StampContext) (idx : Int) (val : ℚ) : StampContext :=
  if idx < 0 ∨ ctx.num_vars ≤ idx then ctx
  else { ctx with z := ctx.z.set idx.toNat (ctx.z.getD idx.toNat 0 + val) }

/-- `CtxAllocExtraVar`: exactly the source computation —
`new_idx = num_vars_ + num_extra_allocated_`, then increment the extra
counter, resize `z_` to `new_idx + 1`, and set `num_vars_ = new_idx + 1`.
Returns `(new_idx, updated context)`. -/
def CtxAllocExtraVar (ctx : StampContext) : Int × StampContext :=
  let new_idx := ctx.num_vars + ctx.num_extra_allocated
  (new_idx,
    { ctx with
      num_extra_allocated := ctx.num_extra_allocated + 1
      z := listResize ctx.z (new_idx + 1).toNat 0
      num_vars := new_idx + 1 })

/-- The accumulation loop of `CtxAssembleDense`: for each triplet add `val`
into the flat row-major cell `row * n + col`. -/
def scatterAdd (n : Int) (base : List ℚ) (ts : List Triplet) : List ℚ :=
  ts.foldl
    (fun m t =>
      m.set (t.row * n + t.col).toNat (m.getD (t.row * n + t.col).toNat 0 + t.val))
    base

/-- `CtxAssembleDense`: zero an `n*n` row-major array, then for each stored
triplet add `val` at flat index `row * n + col`. -/
def CtxAssembleDense (ctx : StampContext) : List ℚ :=
  scatterAdd ctx.num_vars
    (List.replicate (ctx.num_vars.toNat * ctx.num_vars.toNat) 0) ctx.triplets

/-! ## Devices -/

/-- The six device variants of `device.cc`. -/
inductive DeviceKind where
  | resistor | currentSource | voltageSource | capacitor | inductor | diode
deriving DecidableEq, Repr

/-- A device record: terminal variable indices `n1`, `n2` (`-1` = ground),
the primary parameter (`R` / `I` / `V` / `C` / `L` / `I_s`), the diode
ideality (`param2`) and the `extra_var` sentinel (`-1` none, `-2` requested,
`≥ 0` allocated), mirroring `struct Device` plus its params block. -/
structure Device where
  name : String
  kind : DeviceKind
  n1 : Int
  n2 : Int
  param1 : ℚ
  param2 : ℚ
  extra_var : Int
deriving DecidableEq, Repr

/-- `ResistorStampNonlinear`: no-op when `R == 0.0`, otherwise the four
conductance entries, skipping any entry that touches ground. -/
def ResistorStampNonlinear (d : Device) (ctx : StampContext) : StampContext :=
  if d.param1 = 0 then ctx
  else
    let g := 1 / d.param1
    let ctx1 := if 0 ≤ d.n1 then CtxAddA ctx d.n1 d.n1 g else ctx
    let ctx2 := if 0 ≤ d.n2 then CtxAddA ctx1 d.n2 d.n2 g else ctx1
    if 0 ≤ d.n1 ∧ 0 ≤ d.n2 then
      CtxAddA (CtxAddA ctx2 d.n1 d.n2 (-g)) d.n2 d.n1 (-g)
    else ctx2

/-- `CurrentSourceStampNonlinear`: RHS entries `-I` at `n1`, `+I` at `n2`. -/
def CurrentSourceStampNonlinear (d : Device) (ctx : StampContext) : StampContext :=
  let i := d.param1
  let ctx1 := if 0 ≤ d.n1 then CtxAddZ ctx d.n1 (-i) else ctx
  if 0 ≤ d.n2 then CtxAddZ ctx1 d.n2 i else ctx1

/-- `VoltageSourceStampNonlinear`: requires an allocated extra variable;
stamps the four unit entries and adds `V` to `z[k]`. -/
def VoltageSourceStampNonlinear (d : Device) (ctx : StampContext) : StampContext :=
  if d.extra_var < 0 then ctx
  else
    let v := d.param1
    let k := d.extra_var
    let ctx1 :=
      if 0 ≤ d.n1 then CtxAddA (CtxAddA ctx d.n1 k 1) k d.n1 1 else ctx
    let ctx2 :=
      if 0 ≤ d.n2 then CtxAddA (CtxAddA ctx1 d.n2 k (-1)) k d.n2 (-1) else ctx1
    CtxAddZ ctx2 k v

/-- `CapacitorStampNonlinear`: the body in the source is empty — the
capacitor is an open circuit at DC. -/
def CapacitorStampNonlinear (_d : Device) (ctx : StampContext) : StampContext :=
  ctx

/-- `InductorStampNonlinear`: requires an allocated extra variable; stamps
only the four unit entries (a DC short circuit). -/
def InductorStampNonlinear (d : Device) (ctx : StampContext) : StampContext :=
  if d.extra_var < 0 then ctx
  else
    let k := d.extra_var
    let ctx1 :=
      if 0 ≤ d.n1 then CtxAddA (CtxAddA ctx d.n1 k 1) k d.n1 1 else ctx
    if 0 ≤ d.n2 then CtxAddA (CtxAddA ctx1 d.n2 k (-1)) k d.n2 (-1) else ctx1

/-- The thermal voltage constant `kVT = 0.025852` of `device.cc`. -/
def kVT : ℚ := 25852 / 1000000

/-- `DiodeStampNonlinear`: Shockley linearization around the current guess
`x`; `dexp` stands for the C `exp` function, kept abstract because the model
is exact rational arithmetic. -/
def DiodeStampNonlinear (dexp : ℚ → ℚ) (d : Device) (x : List ℚ)
    (ctx : StampContext) : StampContext :=
  let vAnode := if 0 ≤ d.n1 then x.getD d.n1.toNat 0 else 0
  let vCathode := if 0 ≤ d.n2 then x.getD d.n2.toNat 0 else 0
  let vd0 := vAnode - vCathode
  let vd1 := if vd0 > 7/10 then 7/10 else vd0
  let vd := if vd1 < -15 * d.param2 * kVT then -15 * d.param2 * kVT else vd1
  let nVt := d.param2 * kVT
  let expTerm := dexp (vd / nVt)
  let iD := d.param1 * (expTerm - 1)
  let gEq0 := (d.param1 / nVt) * expTerm
  let gEq := if gEq0 < 1 / 10 ^ 12 then 1 / 10 ^ 12 else gEq0
  let iEq := iD - gEq * vd
  let ctx1 := if 0 ≤ d.n1 then CtxAddA ctx d.n1 d.n1 gEq else ctx
  let ctx2 := if 0 ≤ d.n2 then CtxAddA ctx1 d.n2 d.n2 gEq else ctx1
  let ctx3 :=
    if 0 ≤ d.n1 ∧ 0 ≤ d.n2 then
      CtxAddA (CtxAddA ctx2 d.n1 d.n2 (-gEq)) d.n2 d.n1 (-gEq)
    else ctx2
  let ctx4 := if 0 ≤ d.n1 then CtxAddZ ctx3 d.n1 (-iEq) else ctx3
  if 0 ≤ d.n2 then CtxAddZ ctx4 d.n2 iEq else ctx4

/-- `d->vt->StampNonlinear(d, ctx, &it)`: dispatch on the device variant. -/
def DeviceStampNonlinear (dexp : ℚ → ℚ) (d : Device) (x : List ℚ)
    (ctx : StampContext) : StampContext :=
  match d.kind with
  | .resistor => ResistorStampNonlinear d ctx
  | .currentSource => CurrentSourceStampNonlinear d ctx
  | .voltageSource => VoltageSourceStampNonlinear d ctx
  | .capacitor => CapacitorStampNonlinear d ctx
  | .inductor => InductorStampNonlinear d ctx
  | .diode => DiodeStampNonlinear dexp d x ctx

/-! ## Circuit -/

/-- A named node with its assigned variable index (`-1` = ground). -/
structure Node where
  name : String
  var_index : Int
deriving DecidableEq, Repr

/-- The circuit, mirroring `struct Circuit`.  The `devices` list is kept in
linked-list order: `circuit_add_device` pushes to the **front**, and every
iteration in the source walks `c->devices` head-first. -/
structure Circuit where
  nodes : List Node
  devices : List Device
  num_vars : Int
  num_extra_vars : Int
  finalized : Bool
deriving DecidableEq, Repr

/-- `circuit_create`: the ground node `"0"` at index 0, no devices. -/
def circuit_create : Circuit :=
  ⟨[⟨"0", -1⟩], [], 0, 0, false⟩

/-- `circuit_add_device`: rejected after finalization, otherwise prepends to
the device linked list.  The Bool is whether the device was accepted. -/
def circuit_add_device (c : Circuit) (d : Device) : Circuit × Bool :=
  if c.finalized then (c, false)
  else ({ c with devices := d :: c.devices }, true)

/-- Add a list of devices in order through `circuit_add_device`. -/
def addDevices (c : Circuit) (ds : List Device) : Circuit :=
  ds.foldl (fun acc d => (circuit_add_device acc d).1) c

/-- The per-variant `Init` hook invoked by `circuit_finalize`: voltage
sources and inductors request an extra variable by setting
`extra_var = -2`; the other variants leave the device unchanged. -/
def initDevice (d : Device) : Device :=
  match d.kind with
  | .voltageSource => { d with extra_var := -2 }
  | .inductor => { d with extra_var := -2 }
  | _ => d

/-- The finalize pass that grants extra indices: walking the device list,
every device with `extra_var == -2` receives `next` and the counter moves
on (`d->extra_var = c->num_vars + c->num_extra_vars; c->num_extra_vars++`). -/
def allocExtraPass (next : Int) : List Device → List Device
  | [] => []
  | d :: ds =>
    if d.extra_var = -2 then
      { d with extra_var := next } :: allocExtraPass (next + 1) ds
    else d :: allocExtraPass next ds

/-- `circuit_finalize`: returns 0 immediately when already finalized;
otherwise assigns node variable indices, resets every device's `extra_var`
to `-1`, fails with `-1` when the temporary `ctx_create(num_vars)` fails
(no non-ground nodes), and otherwise runs the init hooks, grants the
requested extra variables in device-list order and bumps `num_vars`. -/
def circuit_finalize (c : Circuit) : Circuit × Int :=
  if c.finalized then (c, 0)
  else
    let nodes' := c.nodes.enum.map
      (fun p => if p.1 = 0 then { p.2 with var_index := -1 }
                else { p.2 with var_index := (p.1 : Int) - 1 })
    let nv : Int := (c.nodes.length : Int) - 1
    let devices1 := c.devices.map (fun d => { d with extra_var := -1 })
    if nv ≤ 0 then
      ({ c with nodes := nodes', devices := devices1,
                num_vars := nv, num_extra_vars := 0 }, -1)
    else
      let devices2 := devices1.map initDevice
      let ne : Int := devices2.countP (fun d => d.extra_var == -2)
      let devices3 := allocExtraPass nv devices2
      ({ c with nodes := nodes', devices := devices3,
                num_vars := nv + ne, num_extra_vars := ne,
                finalized := true }, 0)

/-! ## Dense linear solver (`solve_dense_system`) -/

/-- Partial pivot search at column `k`: the row `p ∈ [k, n)` maximizing
`|M[i*n+k]|` (strict improvement, as in the source), with its value. -/
def findPivot (M : List ℚ) (n k : Nat) : Nat × ℚ :=
  ((List.range n).drop (k + 1)).foldl
    (fun pm i =>
      let v := |M.getD (i * n + k) 0|
      if v > pm.2 then (i, v) else pm)
    (k, |M.getD (k * n + k) 0|)

/-- Swap rows `k` and `p` of the row-major matrix `M`. -/
def swapRows (M : List ℚ) (n k p : Nat) : List ℚ :=
  (List.range n).foldl
    (fun m j =>
      let a := m.getD (k * n + j) 0
      let b := m.getD (p * n + j) 0
      (m.set (k * n + j) b).set (p * n + j) a)
    M

/-- Swap two entries of a vector. -/
def swapEntries (l : List ℚ) (i j : Nat) : List ℚ :=
  let a := l.getD i 0
  let b := l.getD j 0
  (l.set i b).set j a

/-- Eliminate below the pivot of column `k`: for each row `i > k` compute
`factor = M[i*n+k] / pivot` and subtract `factor` times row `k` (columns
`k..n-1`) and `factor * rhs[k]`. -/
def elimBelow (n k : Nat) (pivot : ℚ) (Mb : List ℚ × List ℚ) : List ℚ × List ℚ :=
  ((List.range n).drop (k + 1)).foldl
    (fun acc i =>
      let factor := acc.1.getD (i * n + k) 0 / pivot
      let M' := ((List.range n).drop k).foldl
        (fun m j => m.set (i * n + j) (m.getD (i * n + j) 0 - factor * m.getD (k * n + j) 0))
        acc.1
      (M', acc.2.set i (acc.2.getD i 0 - factor * acc.2.getD k 0)))
    Mb

/-- Forward elimination over columns `k, k+1, …` (`fuel = n - k` steps);
`none` when the best pivot has `|pivot| < 1e-15` (the singular case). -/
def gaussForward (n : Nat) : Nat → Nat → List ℚ → List ℚ → Option (List ℚ × List ℚ)
  | 0, _, M, b => some (M, b)
  | fuel + 1, k, M, b =>
    let pm := findPivot M n k
    if pm.2 < 1 / 10 ^ 15 then none
    else
      let M1 := if pm.1 = k then M else swapRows M n k pm.1
      let b1 := if pm.1 = k then b else swapEntries b k pm.1
      let pivot := M1.getD (k * n + k) 0
      let Mb := elimBelow n k pivot (M1, b1)
      gaussForward n fuel (k + 1) Mb.1 Mb.2

/-- Back substitution on the upper-triangular system. -/
def backSub (n : Nat) (M b : List ℚ) : List ℚ :=
  (List.range n).reverse.foldl
    (fun x i =>
      let s := ((List.range n).drop (i + 1)).foldl
        (fun s j => s - M.getD (i * n + j) 0 * x.getD j 0)
        (b.getD i 0)
      x.set i (s / M.getD (i * n + i) 0))
    (List.replicate n 0)

/-- `solve_dense_system`: Gaussian elimination with partial pivoting on
copies of `A` and `b`; `none` reports the singular (`< 1e-15` pivot) case. -/
def solve_dense_system (n : Nat) (A b : List ℚ) : Option (List ℚ) :=
  (gaussForward n n 0 A b).map (fun Mb => backSub n Mb.1 Mb.2)

/-! ## DC Newton-Raphson driver (`circuit_dc_analysis`) -/

/-- The per-index convergence test `|x_new[i] - x[i]| <= tol_abs +
tol_rel * |x_new[i]|` for every `i < n` (the source updates `x` to `x_new`
before reading `|x[i]|`). -/
def convergedCheck (n : Nat) (xNew x : List ℚ) (tolAbs tolRel : ℚ) : Bool :=
  (List.range n).all
    (fun i => |xNew.getD i 0 - x.getD i 0| ≤ tolAbs + tolRel * |xNew.getD i 0|)

/-- One stamping pass: reset the context and invoke `StampNonlinear` on
every device in device-list order. -/
def stampAllDevices (dexp : ℚ → ℚ) (c : Circuit) (x : List ℚ)
    (ctx : StampContext) : StampContext :=
  c.devices.foldl (fun cx d => DeviceStampNonlinear dexp d x cx) (CtxReset ctx)

/-- The Newton-Raphson loop of `circuit_dc_analysis`:
`for (iter = 0; iter < max_iter; iter++) { stamp; assemble; solve;
update; if (converged || iter == 0) { iter++; break; } }` with
`fuel = max_iter - iter`.  Returns the C return value and the final `x`. -/
def dcLoop (dexp : ℚ → ℚ) (c : Circuit) (n : Int) (tolAbs tolRel : ℚ) :
    Nat → Int → StampContext → List ℚ → Int × List ℚ
  | 0, iter, _, x => (iter, x)
  | fuel + 1, iter, ctx, x =>
    let ctx1 := stampAllDevices dexp c x ctx
    let A := CtxAssembleDense ctx1
    match solve_dense_system n.toNat A ctx1.z with
    | none => (-1, x)
    | some xNew =>
      if convergedCheck n.toNat xNew x tolAbs tolRel || iter == 0 then
        (iter + 1, xNew)
      else dcLoop dexp c n tolAbs tolRel fuel (iter + 1) ctx1 xNew

/-- `circuit_dc_analysis`: rejects unfinalized circuits and `num_vars == 0`,
zero-initializes `x`, creates the context and runs the NR loop.  Returns
the C return value (iteration count or `-1`) and the solution vector. -/
def circuit_dc_analysis (dexp : ℚ → ℚ) (c : Circuit) (maxIter : Int)
    (tolAbs tolRel : ℚ) : Int × List ℚ :=
  if c.finalized = false then (-1, [])
  else
    let n := c.num_vars
    if n = 0 then (-1, [])
    else
      match CtxCreate n with
      | none => (-1, [])
      | some ctx =>
        dcLoop dexp c n tolAbs tolRel maxIter.toNat 0 ctx
          (List.replicate n.toNat 0)

/-! ## Derived notions used by the specification claims -/

/-- The sum of the values of all stored triplets matching cell `(r, c)` —
the value `assemble_dense` is specified to produce at that cell. -/
def sumMatch (r c : Int) (ts : List Triplet) : ℚ :=
  ((ts.filter (fun t => t.row == r && t.col == c)).map (fun t => t.val)).sum

/-- The StampContext triplet invariant: all stored rows and columns lie in
`[0, num_vars)`. -/
def TripletsInRange (nv : Int) (ts : List Triplet) : Prop :=
  ∀ t ∈ ts, 0 ≤ t.row ∧ t.row < nv ∧ 0 ≤ t.col ∧ t.col < nv

/-- Run a sequence of `add_A` requests through `CtxAddA`. -/
def applyAddAList (ctx : StampContext) (reqs : List (Int × Int × ℚ)) : StampContext :=
  reqs.foldl (fun c p => CtxAddA c p.1 p.2.1 p.2.2) ctx

/-- The device variants whose `Init` hook requests a branch-current extra
variable (voltage sources and inductors). -/
def requestsExtra (d : Device) : Bool :=
  match d.kind with
  | .voltageSource => true
  | .inductor => true
  | _ => false

/-- The consecutive index sequence `next, next+1, …` of length `n` — the
order in which finalize hands out branch-current extra variables. -/
def extraSeq (next : Int) : Nat → List Int
  | 0 => []
  | n + 1 => next :: extraSeq (next + 1) n

/-- The stamping context produced by the first Newton-Raphson iteration of
`circuit_dc_analysis`: every device stamped against the all-zero initial
guess, starting from the freshly created (and reset) context. -/
def firstIterationContext (dexp : ℚ → ℚ) (c : Circuit) : StampContext :=
  stampAllDevices dexp c (List.replicate c.num_vars.toNat 0)
    ⟨c.num_vars, 0, [], List.replicate c.num_vars.toNat 0⟩

/-! ## Concrete fixtures for witnesses and counterexamples -/

/-- A trivial stand-in for the C `exp` function. -/
def dexp0 : ℚ → ℚ := fun _ => 0

/-- A two-variable context as produced by `CtxCreate 2`. -/
def ctxW2 : StampContext := ⟨2, 0, [], [0, 0]⟩

/-- A four-variable context as produced by `CtxCreate 4`. -/
def ctxW4 : StampContext := ⟨4, 0, [], [0, 0, 0, 0]⟩

/-- An unfinalized circuit with ground and one extra node `"a"`. -/
def circW0 : Circuit := ⟨[⟨"0", -1⟩, ⟨"a", -1⟩], [], 0, 0, false⟩

/-- A 1 Ω resistor from variable 0 to ground. -/
def devR1 : Device := ⟨"R1", .resistor, 0, -1, 1, 0, -1⟩

/-- A 5 V source between variable 0 and ground. -/
def devV1 : Device := ⟨"V1", .voltageSource, 0, -1, 5, 0, -1⟩

/-- A 3 V source between variable 0 and ground. -/
def devV2 : Device := ⟨"V2", .voltageSource, 0, -1, 3, 0, -1⟩

/-- The finalized single-resistor circuit: one node variable, one device. -/
def circR : Circuit := (circuit_finalize (addDevices circW0 [devR1])).1

/-! ## List helper lemmas -/

theorem list_set_getD_self (l : List ℚ) (i : Nat) : l.set i (l.getD i 0) = l := by
  induction l generalizing i with
  | nil => rfl
  | cons a l ih =>
    cases i with
    | zero => rfl
    | succ j =>
      show a :: l.set j (l.getD j 0) = a :: l
      rw [ih]

theorem list_getD_set_self (l : List ℚ) (i : Nat) (v : ℚ) (h : i < l.length) :
    (l.set i v).getD i 0 = v := by
  induction l generalizing i with
  | nil => simp at h
  | cons a l ih =>
    cases i with
    | zero => rfl
    | succ j =>
      simp only [List.set, List.getD_cons_succ]
      exact ih j (by simpa using h)

theorem list_getD_set_ne (l : List ℚ) (i j : Nat) (v : ℚ) (h : i ≠ j) :
    (l.set i v).getD j 0 = l.getD j 0 := by
  induction l generalizing i j with
  | nil => rfl
  | cons a l ih =>
    cases i with
    | zero =>
      cases j with
      | zero => exact absurd rfl h
      | succ k => rfl
    | succ i' =>
      cases j with
      | zero => rfl
      | succ k =>
        simp only [List.set, List.getD_cons_succ]
        exact ih i' k (by omega)

theorem list_getD_replicate (n i : Nat) : (List.replicate n (0 : ℚ)).getD i 0 = 0 := by
  induction n generalizing i with
  | zero => rfl
  | succ m ih =>
    cases i with
    | zero => rfl
    | succ j => exact ih j

/-- Adding zero to a RHS entry leaves the context unchanged. -/
theorem CtxAddZ_zero (ctx : StampContext) (idx : Int) : CtxAddZ ctx idx 0 = ctx := by
  unfold CtxAddZ
  split
  · rfl
  · show { ctx with z := ctx.z.set idx.toNat (ctx.z.getD idx.toNat 0 + 0) } = ctx
    rw [add_zero, list_set_getD_self]

/-! ## C9: the capacitor DC stamp is a frame no-op -/

/-- C9: for every capacitor device and every context, `CapacitorStampNonlinear`
leaves the StampContext completely unchanged — no triplet is appended and the
RHS vector is not modified (the DC open-circuit behaviour). -/
theorem capacitor_dc_stamp_is_noop (d : Device) (ctx : StampContext) :
    CapacitorStampNonlinear d ctx = ctx ∧
    (CapacitorStampNonlinear d ctx).triplets = ctx.triplets ∧
    (CapacitorStampNonlinear d ctx).z = ctx.z :=
  ⟨rfl, rfl, rfl⟩

/-! ## C10: a zero-ohm resistor never stamps and never divides -/

/-- C10: for every resistor device whose resistance parameter is exactly 0,
`ResistorStampNonlinear` returns the StampContext unchanged: the `R == 0.0`
guard fires before `1/R`, so no triplet is appended. -/
theorem resistor_zero_resistance_noop (nm : String) (n1 n2 ev : Int) (p2 : ℚ)
    (ctx : StampContext) :
    ResistorStampNonlinear ⟨nm, .resistor, n1, n2, 0, p2, ev⟩ ctx = ctx := by
  simp [ResistorStampNonlinear]

/-! ## C7: invalid add operations are observable no-ops -/

/-- C7: `add_A` with an out-of-range row or column or a zero value, and
`add_z` with an out-of-range index, return the StampContext unchanged —
triplets, RHS vector and `num_vars` included. -/
theorem ctx_add_invalid_noop (ctx : StampContext) (row col idx : Int)
    (val zval : ℚ)
    (hA : row < 0 ∨ ctx.num_vars ≤ row ∨ col < 0 ∨ ctx.num_vars ≤ col ∨ val = 0)
    (hZ : idx < 0 ∨ ctx.num_vars ≤ idx) :
    CtxAddA ctx row col val = ctx ∧ CtxAddZ ctx idx zval = ctx := by
  constructor
  · unfold CtxAddA
    split_ifs <;> first | rfl | tauto
  · unfold CtxAddZ
    split_ifs
    rfl

/-- Witness for C7 at a concrete two-variable context: negative row for
`add_A` and an index past `num_vars` for `add_z`. -/
theorem ctx_add_invalid_noop_witness :
    CtxAddA ctxW2 (-1) 0 1 = ctxW2 ∧ CtxAddZ ctxW2 5 3 = ctxW2 :=
  ctx_add_invalid_noop ctxW2 (-1) 0 5 1 3 (by decide) (by decide)

/-! ## C8: inductor DC stamp = zero-volt voltage source stamp -/

/-- C8: for all terminals `n1, n2` and every extra-variable index `k`, the
inductor DC stamp and the stamp of a 0 V voltage source with the same
terminals and extra variable assemble to the same dense matrix and the same
RHS vector. -/
theorem inductor_dc_stamp_eq_zero_volt_source (nmL nmV : String)
    (lval p2L p2V : ℚ) (n1 n2 k : Int) (ctx : StampContext) :
    CtxAssembleDense
        (InductorStampNonlinear ⟨nmL, .inductor, n1, n2, lval, p2L, k⟩ ctx) =
      CtxAssembleDense
        (VoltageSourceStampNonlinear ⟨nmV, .voltageSource, n1, n2, 0, p2V, k⟩ ctx) ∧
    (InductorStampNonlinear ⟨nmL, .inductor, n1, n2, lval, p2L, k⟩ ctx).z =
      (VoltageSourceStampNonlinear ⟨nmV, .voltageSource, n1, n2, 0, p2V, k⟩ ctx).z := by
  have h : VoltageSourceStampNonlinear ⟨nmV, .voltageSource, n1, n2, 0, p2V, k⟩ ctx =
      InductorStampNonlinear ⟨nmL, .inductor, n1, n2, lval, p2L, k⟩ ctx := by
    unfold VoltageSourceStampNonlinear InductorStampNonlinear
    dsimp only
    split_ifs <;> simp only [CtxAddZ_zero]
  rw [h]
  exact ⟨rfl, rfl⟩

/-! ## C1: alloc_extra_var double-counts on repeated calls -/

/-- C1: the source computation `new_idx = num_vars_ + num_extra_allocated_`
combined with `num_vars_ = new_idx + 1` makes the second allocation skip an
index: starting from `CtxCreate 2`, the first call returns 2 and leaves
`num_vars = 3`, but the second call returns 4 (not 3), jumps `num_vars`
from 3 to 5, and grows `z` by two cells — contradicting the specified
"returns `num_vars`, increments `num_vars`, appends one zero cell". -/
theorem alloc_extra_var_second_call_skips :
    (CtxAllocExtraVar ctxW2).1 = 2 ∧
    (CtxAllocExtraVar ctxW2).2.num_vars = 3 ∧
    (CtxAllocExtraVar ctxW2).2.z = [0, 0, 0] ∧
    (CtxAllocExtraVar (CtxAllocExtraVar ctxW2).2).1 = 4 ∧
    (CtxAllocExtraVar (CtxAllocExtraVar ctxW2).2).2.num_vars = 5 ∧
    (CtxAllocExtraVar (CtxAllocExtraVar ctxW2).2).2.z = [0, 0, 0, 0, 0] := by
  decide

/-! ## C4: finalize on an already finalized circuit -/

/-- C4 (amended): calling `circuit_finalize` on an already finalized circuit
returns the success code 0 and leaves the circuit unchanged — it is an
accepted no-op, not a reported failure. -/
theorem finalize_already_finalized_noop (c : Circuit) (h : c.finalized = true) :
    circuit_finalize c = (c, 0) := by
  unfold circuit_finalize
  simp [h]

/-- Witness for C4 at a concrete circuit finalized once before. -/
theorem finalize_already_finalized_noop_witness :
    circuit_finalize circR = (circR, 0) :=
  finalize_already_finalized_noop circR (by decide)

/-- Counterexample for C4 as stated: the second `circuit_finalize` on a
freshly finalized circuit reports 0 (success), not the failure code `-1`. -/
theorem finalize_twice_not_failure :
    (circuit_finalize (circuit_finalize circW0).1).2 = 0 ∧
    (circuit_finalize (circuit_finalize circW0).1).2 ≠ -1 := by
  decide

/-! ## C6: dense assembly computes per-cell triplet sums -/

theorem flat_index_toNat (nv r c : Int) (hnv : 0 ≤ nv) (hr : 0 ≤ r) (hc : 0 ≤ c) :
    (r * nv + c).toNat = r.toNat * nv.toNat + c.toNat := by
  have h : ((r.toNat * nv.toNat + c.toNat : Nat) : Int) = r * nv + c := by
    push_cast [Int.toNat_of_nonneg hnv, Int.toNat_of_nonneg hr, Int.toNat_of_nonneg hc]
    ring
  rw [← h, Int.toNat_natCast]

theorem nat_flat_lt (N R C : Nat) (hR : R < N) (hC : C < N) : R * N + C < N * N := by
  calc R * N + C < R * N + N := by omega
    _ = (R + 1) * N := by ring
    _ ≤ N * N := Nat.mul_le_mul_right N (by omega)

theorem nat_flat_inj (N R C R' C' : Nat) (hC : C < N) (hC' : C' < N)
    (h : R * N + C = R' * N + C') : R = R' ∧ C = C' := by
  have hN : 0 < N := by omega
  have hdiv : (R * N + C) / N = (R' * N + C') / N := by rw [h]
  have hmod : (R * N + C) % N = (R' * N + C') % N := by rw [h]
  rw [Nat.mul_comm R N, Nat.mul_comm R' N, Nat.mul_add_div hN, Nat.mul_add_div hN,
    Nat.div_eq_of_lt hC, Nat.div_eq_of_lt hC'] at hdiv
  rw [Nat.mul_comm R N, Nat.mul_comm R' N, Nat.mul_add_mod, Nat.mul_add_mod,
    Nat.mod_eq_of_lt hC, Nat.mod_eq_of_lt hC'] at hmod
  omega

theorem scatterAdd_length (nv : Int) (ts : List Triplet) (base : List ℚ) :
    (scatterAdd nv base ts).length = base.length := by
  induction ts generalizing base with
  | nil => rfl
  | cons t ts ih =>
    show (scatterAdd nv (base.set _ _) ts).length = base.length
    rw [ih, List.length_set]

/-- The central accumulation lemma: scattering in-range triplets into a
full-size flat array adds, at each in-range cell, exactly the sum of the
matching values. -/
theorem scatterAdd_getD (nv r c : Int) (hr0 : 0 ≤ r) (hr : r < nv)
    (hc0 : 0 ≤ c) (hc : c < nv) (ts : List Triplet) (base : List ℚ)
    (hts : TripletsInRange nv ts) (hlen : base.length = nv.toNat * nv.toNat) :
    (scatterAdd nv base ts).getD (r * nv + c).toNat 0 =
      base.getD (r * nv + c).toNat 0 + sumMatch r c ts := by
  have hnv : 0 ≤ nv := le_trans hr0 (le_of_lt hr)
  induction ts generalizing base with
  | nil => simp [scatterAdd, sumMatch]
  | cons t ts ih =>
    obtain ⟨htr0, htr, htc0, htc⟩ := hts t (List.mem_cons_self t ts)
    have hts' : TripletsInRange nv ts := fun u hu => hts u (List.mem_cons_of_mem t hu)
    have hbase' : (base.set (t.row * nv + t.col).toNat
        (base.getD (t.row * nv + t.col).toNat 0 + t.val)).length =
        nv.toNat * nv.toNat := by rw [List.length_set, hlen]
    have hstep : scatterAdd nv base (t :: ts) =
        scatterAdd nv (base.set (t.row * nv + t.col).toNat
          (base.getD (t.row * nv + t.col).toNat 0 + t.val)) ts := rfl
    rw [hstep, ih _ hts' hbase']
    by_cases hmatch : t.row = r ∧ t.col = c
    · obtain ⟨hm1, hm2⟩ := hmatch
      have hidx : (t.row * nv + t.col).toNat = (r * nv + c).toNat := by
        rw [hm1, hm2]
      have hlt : (r * nv + c).toNat < base.length := by
        rw [hlen, flat_index_toNat nv r c hnv hr0 hc0]
        exact nat_flat_lt nv.toNat r.toNat c.toNat
          (by omega) (by omega)
      rw [hidx, list_getD_set_self _ _ _ hlt]
      have hsum : sumMatch r c (t :: ts) = t.val + sumMatch r c ts := by
        unfold sumMatch
        rw [List.filter_cons]
        have : (t.row == r && t.col == c) = true := by
          simp [hm1, hm2]
        rw [if_pos this]
        simp
      rw [hsum]
      ring
    · have hidx : (t.row * nv + t.col).toNat ≠ (r * nv + c).toNat := by
        intro heq
        rw [flat_index_toNat nv t.row t.col hnv htr0 htc0,
          flat_index_toNat nv r c hnv hr0 hc0] at heq
        obtain ⟨h1, h2⟩ := nat_flat_inj nv.toNat t.row.toNat t.col.toNat
          r.toNat c.toNat (by omega) (by omega) heq
        exact hmatch ⟨by omega, by omega⟩
      rw [list_getD_set_ne _ _ _ _ hidx]
      have hsum : sumMatch r c (t :: ts) = sumMatch r c ts := by
        unfold sumMatch
        rw [List.filter_cons]
        have : (t.row == r && t.col == c) = false := by
          rcases not_and_or.mp hmatch with h | h <;> simp [h]
        rw [if_neg (by simp [this])]
      rw [hsum]

theorem CtxAddA_num_vars (ctx : StampContext) (row col : Int) (val : ℚ) :
    (CtxAddA ctx row col val).num_vars = ctx.num_vars := by
  unfold CtxAddA
  split_ifs <;> rfl

theorem CtxAddA_preserves_range (ctx : StampContext) (row col : Int) (val : ℚ)
    (h : TripletsInRange ctx.num_vars ctx.triplets) :
    TripletsInRange (CtxAddA ctx row col val).num_vars
      (CtxAddA ctx row col val).triplets := by
  unfold CtxAddA
  split_ifs with h1 h2 h3
  · exact h
  · exact h
  · exact h
  · intro t ht
    rcases List.mem_append.mp ht with hin | hsing
    · exact h t hin
    · rcases List.mem_singleton.mp hsing with rfl
      push_neg at h1 h2
      exact ⟨h1.1, h1.2, h2.1, h2.2⟩

theorem applyAddAList_num_vars (ctx : StampContext) (reqs : List (Int × Int × ℚ)) :
    (applyAddAList ctx reqs).num_vars = ctx.num_vars := by
  induction reqs generalizing ctx with
  | nil => rfl
  | cons p ps ih =>
    show (applyAddAList (CtxAddA ctx p.1 p.2.1 p.2.2) ps).num_vars = ctx.num_vars
    rw [ih, CtxAddA_num_vars]

theorem applyAddAList_preserves_range (ctx : StampContext)
    (reqs : List (Int × Int × ℚ)) (h : TripletsInRange ctx.num_vars ctx.triplets) :
    TripletsInRange (applyAddAList ctx reqs).num_vars
      (applyAddAList ctx reqs).triplets := by
  induction reqs generalizing ctx with
  | nil => exact h
  | cons p ps ih =>
    exact ih (CtxAddA ctx p.1 p.2.1 p.2.2) (CtxAddA_preserves_range ctx _ _ _ h)

/-- C6: for a context created with `CtxCreate N` and filled by any sequence
of `add_A` requests, `CtxAssembleDense` produces an `N*N` array whose cell
`(r, c)` holds exactly the sum of the values of the triplets recorded for
that cell (cells no triplet matches therefore hold zero). -/
theorem assemble_dense_cell_sums (N : Int) (ctx0 : StampContext)
    (reqs : List (Int × Int × ℚ)) (r c : Int)
    (hcreate : CtxCreate N = some ctx0)
    (hr0 : 0 ≤ r) (hr : r < N) (hc0 : 0 ≤ c) (hc : c < N) :
    (CtxAssembleDense (applyAddAList ctx0 reqs)).getD (r * N + c).toNat 0 =
      sumMatch r c (applyAddAList ctx0 reqs).triplets ∧
    (CtxAssembleDense (applyAddAList ctx0 reqs)).length = N.toNat * N.toNat := by
  have hN : ¬ N ≤ 0 := by
    intro hle
    rw [CtxCreate, if_pos hle] at hcreate
    exact Option.noConfusion hcreate
  have hctx0 : ctx0 = ⟨N, 0, [], List.replicate N.toNat 0⟩ := by
    rw [CtxCreate, if_neg hN] at hcreate
    exact (Option.some.injEq _ _ ▸ hcreate.symm)
  have hnv : (applyAddAList ctx0 reqs).num_vars = N := by
    rw [applyAddAList_num_vars, hctx0]
  have hwf : TripletsInRange (applyAddAList ctx0 reqs).num_vars
      (applyAddAList ctx0 reqs).triplets := by
    apply applyAddAList_preserves_range
    rw [hctx0]
    intro t ht
    exact absurd ht (List.not_mem_nil t)
  rw [hnv] at hwf
  constructor
  · unfold CtxAssembleDense
    rw [hnv]
    rw [scatterAdd_getD N r c hr0 hr hc0 hc _ _ hwf (by rw [List.length_replicate])]
    rw [list_getD_replicate, zero_add]
  · unfold CtxAssembleDense
    rw [hnv, scatterAdd_length, List.length_replicate]

/-- Witness for C6: `N = 4` with three accumulating `add_A(0,0,·)` calls of
values 1, 2, 3; cell `(0,0)` of the assembled matrix holds their sum 6. -/
theorem assemble_dense_cell_sums_witness :
    ((CtxAssembleDense (applyAddAList ctxW4 [(0, 0, 1), (0, 0, 2), (0, 0, 3)])).getD
        ((0 : Int) * 4 + 0).toNat 0 =
      sumMatch 0 0 (applyAddAList ctxW4 [(0, 0, 1), (0, 0, 2), (0, 0, 3)]).triplets ∧
    (CtxAssembleDense (applyAddAList ctxW4 [(0, 0, 1), (0, 0, 2), (0, 0, 3)])).length =
      (4 : Int).toNat * (4 : Int).toNat) ∧
    sumMatch 0 0 (applyAddAList ctxW4 [(0, 0, 1), (0, 0, 2), (0, 0, 3)]).triplets = 6 :=
  ⟨assemble_dense_cell_sums 4 ctxW4 [(0, 0, 1), (0, 0, 2), (0, 0, 3)] 0 0
      (by decide) (by decide) (by decide) (by decide) (by decide),
    by decide⟩

/-! ## C2: extra-variable assignment order at finalize -/

theorem addDevices_eq (c : Circuit) (ds : List Device) (h : c.finalized = false) :
    addDevices c ds = { c with devices := ds.reverse ++ c.devices } := by
  induction ds generalizing c with
  | nil => simp [addDevices]
  | cons d ds ih =>
    have hstep : addDevices c (d :: ds) =
        addDevices { c with devices := d :: c.devices } ds := by
      show addDevices (circuit_add_device c d).1 ds = _
      rw [circuit_add_device, if_neg (by rw [h]; exact Bool.false_ne_true)]
    rw [hstep, ih { c with devices := d :: c.devices } h]
    simp

theorem allocExtraPass_name_kind (next : Int) (l : List Device) :
    (allocExtraPass next l).map (fun d => (d.name, d.kind)) =
      l.map (fun d => (d.name, d.kind)) := by
  induction l generalizing next with
  | nil => rfl
  | cons d ds ih =>
    unfold allocExtraPass
    split_ifs <;> simp [ih]

theorem allocExtraPass_extras (next : Int) (l : List Device)
    (h : ∀ d ∈ l, d.extra_var = -2 ↔ requestsExtra d = true) :
    ((allocExtraPass next l).filter requestsExtra).map (fun d => d.extra_var) =
      extraSeq next (l.countP requestsExtra) := by
  induction l generalizing next with
  | nil => rfl
  | cons d ds ih =>
    by_cases hreq : requestsExtra d = true
    · have hd : d.extra_var = -2 := (h d (List.mem_cons_self d ds)).mpr hreq
      have hreq' : requestsExtra { d with extra_var := next } = true := hreq
      unfold allocExtraPass
      rw [if_pos hd]
      rw [List.filter_cons_of_pos hreq', List.map_cons]
      rw [ih (next + 1) (fun u hu => h u (List.mem_cons_of_mem d hu))]
      rw [List.countP_cons_of_pos _ _ hreq]
      rfl
    · have hd : ¬ d.extra_var = -2 := fun hc =>
        hreq ((h d (List.mem_cons_self d ds)).mp hc)
      unfold allocExtraPass
      rw [if_neg hd]
      rw [List.filter_cons_of_neg (by simpa using hreq)]
      rw [ih next (fun u hu => h u (List.mem_cons_of_mem d hu))]
      rw [List.countP_cons_of_neg _ _ (by simpa using hreq)]

theorem initDevice_reset_extra (d : Device) :
    (initDevice { d with extra_var := -1 }).extra_var = -2 ↔
      requestsExtra (initDevice { d with extra_var := -1 }) = true := by
  rcases d with ⟨nm, k, a, b, p1, p2, ev⟩
  cases k <;> simp [initDevice, requestsExtra]

theorem initDevice_reset_name_kind (d : Device) :
    (initDevice { d with extra_var := -1 }).name = d.name ∧
      (initDevice { d with extra_var := -1 }).kind = d.kind := by
  rcases d with ⟨nm, k, a, b, p1, p2, ev⟩
  cases k <;> simp [initDevice]

theorem initDevice_reset_requests (d : Device) :
    requestsExtra (initDevice { d with extra_var := -1 }) = requestsExtra d := by
  rcases d with ⟨nm, k, a, b, p1, p2, ev⟩
  cases k <;> simp [initDevice, requestsExtra]

/-- C2 (amended): for every circuit built by adding devices `ds` in order
and then finalizing, the finalized device list is the **reverse** of the
insertion order (`circuit_add_device` prepends to a linked list), and the
branch-current extra variables are assigned in that list order as
`num_vars, num_vars+1, …` — so the **last** voltage source or inductor
added receives the lowest extra index, not the first. -/
theorem finalize_extras_reverse_insertion_order (c0 : Circuit) (ds : List Device)
    (h0 : c0.finalized = false) (hdev : c0.devices = [])
    (hn : 2 ≤ c0.nodes.length) :
    ((circuit_finalize (addDevices c0 ds)).1.devices.map (fun d => (d.name, d.kind)) =
        ds.reverse.map (fun d => (d.name, d.kind))) ∧
    (((circuit_finalize (addDevices c0 ds)).1.devices.filter requestsExtra).map
        (fun d => d.extra_var) =
      extraSeq ((c0.nodes.length : Int) - 1) (ds.countP requestsExtra)) := by
  rw [addDevices_eq c0 ds h0, hdev]
  unfold circuit_finalize
  rw [if_neg (by rw [h0]; exact Bool.false_ne_true)]
  have hnv : ¬ ((c0.nodes.length : Int) - 1 ≤ 0) := by
    push_neg
    omega
  dsimp only
  rw [if_neg hnv]
  dsimp only
  have hmaps : ((ds.reverse ++ []).map (fun (d : Device) => { d with extra_var := -1 })).map
      initDevice =
      ds.reverse.map (fun (d : Device) => initDevice { d with extra_var := -1 }) := by
    rw [List.append_nil, List.map_map]
    rfl
  rw [hmaps]
  constructor
  · rw [allocExtraPass_name_kind, List.map_map]
    apply List.map_congr_left
    intro d _
    exact Prod.ext (initDevice_reset_name_kind d).1 (initDevice_reset_name_kind d).2
  · rw [allocExtraPass_extras _ _ (by
      intro u hu
      rcases List.mem_map.mp hu with ⟨d, _, rfl⟩
      exact initDevice_reset_extra d)]
    have hcnt : (ds.reverse.map
        (fun d => initDevice { d with extra_var := -1 })).countP requestsExtra =
        ds.countP requestsExtra := by
      rw [List.countP_map]
      have hfun : (requestsExtra ∘ fun d => initDevice { d with extra_var := -1 }) =
          requestsExtra := by
        funext d
        exact initDevice_reset_requests d
      rw [hfun, List.countP_reverse]
    rw [hcnt]

/-- Witness for C2 (amended) at two voltage sources added as `V1` then
`V2`. -/
theorem finalize_extras_reverse_insertion_order_witness :
    ((circuit_finalize (addDevices circW0 [devV1, devV2])).1.devices.map
          (fun d => (d.name, d.kind)) =
        ([devV1, devV2] : List Device).reverse.map (fun d => (d.name, d.kind))) ∧
    (((circuit_finalize (addDevices circW0 [devV1, devV2])).1.devices.filter
          requestsExtra).map (fun d => d.extra_var) =
      extraSeq ((circW0.nodes.length : Int) - 1)
        (([devV1, devV2] : List Device).countP requestsExtra)) :=
  finalize_extras_reverse_insertion_order circW0 [devV1, devV2]
    (by decide) (by decide) (by decide)

/-- Counterexample for C2 as stated: with `V1` added before `V2`, the
first-added source `V1` receives extra index 2 while the later `V2`
receives the lower index 1 — branch currents are not in device-insertion
order. -/
theorem finalize_first_added_gets_higher_extra :
    (((circuit_finalize (addDevices circW0 [devV1, devV2])).1.devices.find?
        (fun d => d.name == "V1")).map (fun d => d.extra_var) = some 2) ∧
    (((circuit_finalize (addDevices circW0 [devV1, devV2])).1.devices.find?
        (fun d => d.name == "V2")).map (fun d => d.extra_var) = some 1) ∧
    ((1 : Int) < 2) := by
  decide

/-! ## C3 and C5: the DC driver's return value and loop exit -/

/-- C3 (amended): for every finalized circuit and `max_iter ≥ 1`,
`circuit_dc_analysis` returns either `-1` (failure) or the number of
Newton-Raphson iterations performed, which is at least 1.  (With
`max_iter ≤ 0` the loop body never runs and the function returns 0.) -/
theorem dc_analysis_result_positive_max_iter (dexp : ℚ → ℚ) (c : Circuit)
    (maxIter : Int) (tolAbs tolRel : ℚ)
    (hfin : c.finalized = true) (hm : 1 ≤ maxIter) :
    (circuit_dc_analysis dexp c maxIter tolAbs tolRel).1 = -1 ∨
      1 ≤ (circuit_dc_analysis dexp c maxIter tolAbs tolRel).1 := by
  unfold circuit_dc_analysis
  rw [if_neg (by simp [hfin])]
  dsimp only
  by_cases hn : c.num_vars = 0
  · rw [if_pos hn]
    left
    rfl
  · rw [if_neg hn]
    cases hcr : CtxCreate c.num_vars with
    | none =>
      left
      rfl
    | some ctx =>
      obtain ⟨m, hm'⟩ : ∃ m, maxIter.toNat = m + 1 := ⟨maxIter.toNat - 1, by omega⟩
      rw [hm']
      unfold dcLoop
      dsimp only
      cases hsolve : solve_dense_system c.num_vars.toNat
          (CtxAssembleDense (stampAllDevices dexp c (List.replicate c.num_vars.toNat 0) ctx))
          (stampAllDevices dexp c (List.replicate c.num_vars.toNat 0) ctx).z with
      | none =>
        left
        rfl
      | some xNew =>
        dsimp only
        rw [if_pos (by simp)]
        right
        norm_num

/-- Witness for C3 (amended) at the finalized one-resistor circuit with
`max_iter = 1`. -/
theorem dc_analysis_result_positive_max_iter_witness :
    (circuit_dc_analysis dexp0 circR 1 0 0).1 = -1 ∨
      1 ≤ (circuit_dc_analysis dexp0 circR 1 0 0).1 :=
  dc_analysis_result_positive_max_iter dexp0 circR 1 0 0 (by decide) (by decide)

/-- Counterexample for C3 as stated: on the finalized one-resistor circuit
with `max_iter = 0` the analysis returns 0, which is neither `-1` nor a
positive iteration count. -/
theorem dc_analysis_zero_max_iter_returns_zero :
    (circuit_dc_analysis dexp0 circR 0 0 0).1 = 0 ∧
    ¬ ((circuit_dc_analysis dexp0 circR 0 0 0).1 = -1 ∨
        1 ≤ (circuit_dc_analysis dexp0 circR 0 0 0).1) := by
  decide

/-- C5: with `max_iter ≥ 1`, whenever the first linear solve succeeds the
first Newton-Raphson iteration terminates the loop: `circuit_dc_analysis`
returns exactly one iteration (and the solved vector), for every tolerance
pair — the `iter == 0` short-circuit ignores the tolerance test. -/
theorem dc_first_iteration_always_terminates (dexp : ℚ → ℚ) (c : Circuit)
    (maxIter : Int) (tolAbs tolRel : ℚ) (x1 : List ℚ)
    (hfin : c.finalized = true) (hn : 0 < c.num_vars) (hm : 1 ≤ maxIter)
    (hsolve : solve_dense_system c.num_vars.toNat
        (CtxAssembleDense (firstIterationContext dexp c))
        (firstIterationContext dexp c).z = some x1) :
    circuit_dc_analysis dexp c maxIter tolAbs tolRel = (1, x1) := by
  unfold circuit_dc_analysis
  rw [if_neg (by simp [hfin])]
  dsimp only
  rw [if_neg (by omega)]
  have hcr : CtxCreate c.num_vars =
      some ⟨c.num_vars, 0, [], List.replicate c.num_vars.toNat 0⟩ := by
    unfold CtxCreate
    rw [if_neg (by omega)]
  rw [hcr]
  obtain ⟨m, hm'⟩ : ∃ m, maxIter.toNat = m + 1 := ⟨maxIter.toNat - 1, by omega⟩
  rw [hm']
  unfold dcLoop
  dsimp only
  rw [show stampAllDevices dexp c (List.replicate c.num_vars.toNat 0)
      ⟨c.num_vars, 0, [], List.replicate c.num_vars.toNat 0⟩ =
      firstIterationContext dexp c from rfl]
  rw [hsolve]
  dsimp only
  rw [if_pos (by simp)]
  norm_num

/-- Witness for C5: the one-resistor circuit's first solve succeeds with
solution `[0]`, and the analysis returns after exactly one iteration. -/
theorem dc_first_iteration_always_terminates_witness :
    circuit_dc_analysis dexp0 circR 1 0 0 = (1, [0]) :=
  dc_first_iteration_always_terminates dexp0 circR 1 0 0 [0]
    (by decide) (by decide) (by decide) (by decide)

end MiniSpice
